import Mathlib

/-!
Shallow embedding of the DeepNet engine in src/deep_network.py.

Matrices (numpy 2-d arrays) are modelled as a shape together with a total
entry function over exact rationals; entries outside the declared shape are
irrelevant junk, and every statement below only inspects entries inside the
shape or the shape itself.  Rational division is total in Lean with x / 0 = 0;
all concrete inputs used in counterexamples keep the denominators that the
source divides by nonzero, so the traces agree with the floating point
evaluation of the source.  Fallible source operations (an indexing error on an
empty parameter dictionary, a numpy shape error) are modelled with Option.
-/

/-- Dense 2-d array: a shape plus a total entry function. -/
structure Mat where
  rows : ℕ
  cols : ℕ
  entry : ℕ → ℕ → ℚ

/-- Sum of f 0 + f 1 + ... + f (n-1), the reduction behind np.dot and np.sum. -/
def sumTo (n : ℕ) (f : ℕ → ℚ) : ℚ :=
  match n with
  | 0 => 0
  | k + 1 => sumTo k f + f k

/-- np.dot on 2-d arrays. -/
def Mat.mul (A B : Mat) : Mat :=
  ⟨A.rows, B.cols, fun i j => sumTo A.cols (fun k => A.entry i k * B.entry k j)⟩

/-- Adding a (n,1) bias with numpy column broadcasting. -/
def Mat.addCol (Z b : Mat) : Mat :=
  ⟨Z.rows, Z.cols, fun i j => Z.entry i j + b.entry i 0⟩

/-- Elementwise application of a scalar function. -/
def Mat.map (f : ℚ → ℚ) (A : Mat) : Mat :=
  ⟨A.rows, A.cols, fun i j => f (A.entry i j)⟩

/-- np.multiply, the elementwise product. -/
def Mat.had (A B : Mat) : Mat :=
  ⟨A.rows, A.cols, fun i j => A.entry i j * B.entry i j⟩

/-- Scalar times array. -/
def Mat.scale (c : ℚ) (A : Mat) : Mat :=
  ⟨A.rows, A.cols, fun i j => c * A.entry i j⟩

/-- The .T attribute. -/
def Mat.transpose (A : Mat) : Mat :=
  ⟨A.cols, A.rows, fun i j => A.entry j i⟩

/-- np.sum(_, axis=1, keepdims=True). -/
def Mat.rowsum (A : Mat) : Mat :=
  ⟨A.rows, 1, fun i _ => sumTo A.cols (fun k => A.entry i k)⟩

/-- numpy broadcasting of one axis: equal extents pass unchanged, an extent
of 1 is stretched to the other, and anything else is a shape error. -/
def broadcastDim (a b : ℕ) : Option ℕ :=
  if a = b then some a else if a = 1 then some b else if b = 1 then some a else none

/-- Index into an axis of extent n under broadcasting (an axis of extent 1
repeats its only entry). -/
def bcastIdx (n i : ℕ) : ℕ := if n = 1 then 0 else i

/-- numpy elementwise subtraction on 2-d arrays, with broadcasting; the
numpy shape error is the none branch. -/
def Mat.ewSub (A B : Mat) : Option Mat :=
  match broadcastDim A.rows B.rows, broadcastDim A.cols B.cols with
  | some r, some c =>
    some ⟨r, c, fun i j =>
      A.entry (bcastIdx A.rows i) (bcastIdx A.cols j)
        - B.entry (bcastIdx B.rows i) (bcastIdx B.cols j)⟩
  | _, _ => none

/-- numpy reshape to (r, c), reading the source array in row-major order. -/
def Mat.reshape (r c : ℕ) (A : Mat) : Mat :=
  ⟨r, c, fun i j => A.entry ((i * c + j) / A.cols) ((i * c + j) % A.cols)⟩

/-- Default matrix used with List.getD; never inspected when indices are in
range. -/
def mat0 : Mat := ⟨0, 0, fun _ _ => 0⟩

/-- Modelled from the spec: activations.py (relu, d_relu, sigmoid, d_sigmoid)
is imported by src/deep_network.py but is not under src/; §4.1 of the spec
only fixes that these are elementwise scalar functions, a rectifying pair and
a saturating pair.  The development is therefore parameterised over the four
functions; no claim below depends on their pointwise values. -/
structure Activations where
  relu : ℚ → ℚ
  d_relu : ℚ → ℚ
  sigmoid : ℚ → ℚ
  d_sigmoid : ℚ → ℚ

/-- Identity of an activation function, used where the source compares
function references (activ_fn is relu). -/
inductive ActivFn
  | relu
  | sigmoid
deriving DecidableEq

/-- Identity of a derivative function, stored in the forward cache. -/
inductive DFn
  | d_relu
  | d_sigmoid
deriving DecidableEq

def Activations.apply (AM : Activations) : ActivFn → ℚ → ℚ
  | ActivFn.relu => AM.relu
  | ActivFn.sigmoid => AM.sigmoid

def Activations.applyD (AM : Activations) : DFn → ℚ → ℚ
  | DFn.d_relu => AM.d_relu
  | DFn.d_sigmoid => AM.d_sigmoid

/-- The tuple cached per layer by DeepNet.activate: (A_prev, W, b, Z, d_func). -/
structure Cache where
  A_prev : Mat
  W : Mat
  b : Mat
  Z : Mat
  d_func : DFn

def cache0 : Cache := ⟨mat0, mat0, mat0, mat0, DFn.d_relu⟩

/-- Per-layer parameters, ordered layer 1 .. layer L; layer l owns the
entries W{l} and b{l} of the source's parameter dictionary. -/
abbrev Params := List (Mat × Mat)

def pair0 : Mat × Mat := (mat0, mat0)

def triple0 : Mat × Mat × Mat := (mat0, mat0, mat0)

/-- DeepNet.activate (src/deep_network.py:38-58): Z = np.dot(W, A_prev) + b,
A = activ_fn(Z); the derivative reference stored in the cache is d_relu when
activ_fn is relu and d_sigmoid otherwise. -/
def activate (AM : Activations) (A_prev W b : Mat) (activ_fn : ActivFn) : Mat × Cache :=
  let Z := Mat.addCol (Mat.mul W A_prev) b
  let A := Mat.map (AM.apply activ_fn) Z
  let d_func := match activ_fn with
    | ActivFn.relu => DFn.d_relu
    | ActivFn.sigmoid => DFn.d_sigmoid
  (A, ⟨A_prev, W, b, Z, d_func⟩)

/-- The relu loop of DeepNet.feedforward (:72-78), over layers 1 .. L-1. -/
def ffHidden (AM : Activations) : List (Mat × Mat) → Mat → Mat × List Cache
  | [], A => (A, [])
  | p :: t, A =>
    let step := activate AM A p.1 p.2 ActivFn.relu
    let rest := ffHidden AM t step.1
    (rest.1, step.2 :: rest.2)

/-- DeepNet.feedforward (:60-87): relu for layers 1 .. L-1, sigmoid for the
output layer L.  With an empty parameter dictionary the source raises a
KeyError on the output-layer lookup; that is the none branch. -/
def feedforward (AM : Activations) (params : Params) (A : Mat) :
    Option (Mat × List Cache) :=
  match params.getLast? with
  | none => none
  | some pL =>
    let h := ffHidden AM params.dropLast A
    let out := activate AM h.1 pL.1 pL.2 ActivFn.sigmoid
    some (out.1, h.2 ++ [out.2])

/-- DeepNet.get_prevlayer_gradient (:192-211).  The activ_fn argument is dead
in the source as well: the derivative is taken from the cache.  m is
A_prev.shape[1]. -/
def get_prevlayer_gradient (AM : Activations) (dA : Mat) (cache : Cache)
    (activ_fn : ActivFn) : Mat × Mat × Mat :=
  let dZ := Mat.had dA (Mat.map (AM.applyD cache.d_func) cache.Z)
  let m : ℚ := (cache.A_prev.cols : ℚ)
  let dW := Mat.scale (1 / m) (Mat.mul dZ (Mat.transpose cache.A_prev))
  let db := Mat.scale (1 / m) (Mat.rowsum dZ)
  let dA_prev := Mat.mul (Mat.transpose cache.W) dZ
  (dA_prev, dW, db)

/-- dAL = - (np.divide(Y, AL) - np.divide(1 - Y, 1 - AL))
(src/deep_network.py:104), with the output's shape. -/
def dALgrad (AL Y : Mat) : Mat :=
  ⟨AL.rows, AL.cols, fun i j =>
    -(Y.entry i j / AL.entry i j - (1 - Y.entry i j) / (1 - AL.entry i j))⟩

/-- DeepNet.backpropagate after the initial Y reshape (:99-121).  Note the
loop body (:111-119) passes grads[dA L] — the value gL.1 stored once for the
output layer — to get_prevlayer_gradient for every hidden layer; the loop
iterations are therefore independent and the hidden layers can be produced by
a map.  The result list is ordered layer 1 .. layer L, entry l-1 carrying the
values the source files under the keys dA{l}, dW{l}, db{l}.  caches[-1] on an
empty cache list is an IndexError in the source: the none branch. -/
def backpropagateCore (AM : Activations) (AL Y : Mat) (caches : List Cache) :
    Option (List (Mat × Mat × Mat)) :=
  match caches.getLast? with
  | none => none
  | some cL =>
    let dAL := dALgrad AL Y
    let gL := get_prevlayer_gradient AM dAL cL ActivFn.sigmoid
    let hidden := caches.dropLast.map (fun c => get_prevlayer_gradient AM gL.1 c ActivFn.relu)
    some (hidden ++ [gL])

/-- DeepNet.backpropagate (:89-121): the first statement reshapes Y to
AL.shape (:101), then runs the backward computation. -/
def backpropagate (AM : Activations) (AL Y : Mat) (caches : List Cache) :
    Option (List (Mat × Mat × Mat)) :=
  backpropagateCore AM AL (Mat.reshape AL.rows AL.cols Y) caches

/-- The claim C3 reading of backpropagate: identical backward computation but
with no reshape of Y performed internally. -/
def backpropagate_noreshape (AM : Activations) (AL Y : Mat) (caches : List Cache) :
    Option (List (Mat × Mat × Mat)) :=
  backpropagateCore AM AL Y caches

/-- Modelled from the spec (§4.5, step 3): the chained backward recursion in
which each layer's step consumes the dA_prev produced by the step of the layer
above it.  Consumes the cache list from layer L down to layer 1 (so it is
applied to caches.reverse) and uses each layer's own cached derivative. -/
def chainSteps (AM : Activations) : List Cache → Mat → List (Mat × Mat × Mat)
  | [], _ => []
  | c :: t, dA =>
    let g := get_prevlayer_gradient AM dA c ActivFn.relu
    g :: chainSteps AM t g.1

/-- The claim C1 reading of the Backward Engine: gradients chained from the
output layer down to layer 1, result ordered layer 1 .. layer L. -/
def backpropagate_chain (AM : Activations) (AL Y : Mat) (caches : List Cache) :
    List (Mat × Mat × Mat) :=
  (chainSteps AM caches.reverse (dALgrad AL (Mat.reshape AL.rows AL.cols Y))).reverse

/-- Extended value as produced by numpy float arithmetic on finite data plus
log: a finite value, a signed infinity, or NaN.  Finite values are kept exact. -/
inductive EV
  | num (q : ℚ)
  | pinf
  | ninf
  | nan
deriving DecidableEq

/-- Largest finite float64, the value np.nan_to_num substitutes for +Inf. -/
def FMAX : ℚ := 2 ^ 1024 - 2 ^ 971

/-- IEEE multiplication on extended values (0 times an infinity is NaN). -/
def EV.mul : EV → EV → EV
  | EV.nan, _ => EV.nan
  | _, EV.nan => EV.nan
  | EV.num a, EV.num b => EV.num (a * b)
  | EV.num a, EV.pinf => if a = 0 then EV.nan else if 0 < a then EV.pinf else EV.ninf
  | EV.num a, EV.ninf => if a = 0 then EV.nan else if 0 < a then EV.ninf else EV.pinf
  | EV.pinf, EV.num b => if b = 0 then EV.nan else if 0 < b then EV.pinf else EV.ninf
  | EV.ninf, EV.num b => if b = 0 then EV.nan else if 0 < b then EV.ninf else EV.pinf
  | EV.pinf, EV.pinf => EV.pinf
  | EV.pinf, EV.ninf => EV.ninf
  | EV.ninf, EV.pinf => EV.ninf
  | EV.ninf, EV.ninf => EV.pinf

/-- IEEE addition on extended values (opposite infinities give NaN). -/
def EV.add : EV → EV → EV
  | EV.nan, _ => EV.nan
  | _, EV.nan => EV.nan
  | EV.num a, EV.num b => EV.num (a + b)
  | EV.num _, EV.pinf => EV.pinf
  | EV.num _, EV.ninf => EV.ninf
  | EV.pinf, EV.num _ => EV.pinf
  | EV.ninf, EV.num _ => EV.ninf
  | EV.pinf, EV.pinf => EV.pinf
  | EV.pinf, EV.ninf => EV.nan
  | EV.ninf, EV.pinf => EV.nan
  | EV.ninf, EV.ninf => EV.ninf

/-- np.nan_to_num with default arguments: NaN goes to 0, +Inf to the largest
finite float, -Inf to its negation. -/
def nan_to_num : EV → ℚ
  | EV.num q => q
  | EV.pinf => FMAX
  | EV.ninf => -FMAX
  | EV.nan => 0

/-- DeepNet.get_cost (:213-227).  m = len(Y) is the FIRST dimension of the
2-d label array Y (the row count, i.e. the number of classes after the
trainer's transpose at :148), not the column/batch count.  The elementwise
array expression Y*log(YHat) + (1-Y)*log(1-YHat) is evaluated in extended
values and each entry is passed through np.nan_to_num before np.sum; np.log is
kept abstract as a parameter into extended values (its arguments here are
exact rationals, its values are generally irrational).  np.squeeze on the
scalar result is the identity. -/
def get_cost (log : ℚ → EV) (YHat Y : Mat) : ℚ :=
  -(1 / ((Y.rows : ℚ))) *
    sumTo Y.rows (fun i => sumTo Y.cols (fun j =>
      nan_to_num (EV.add
        (EV.mul (EV.num (Y.entry i j)) (log (YHat.entry i j)))
        (EV.mul (EV.num (1 - Y.entry i j)) (log (1 - YHat.entry i j))))))

/-- The claim C2 reading of the cost: divide by the batch size (the column
count in the engine's features-major layout) and let every non-finite term of
the sum contribute zero. -/
def get_cost_claim (log : ℚ → EV) (YHat Y : Mat) : ℚ :=
  -(1 / ((Y.cols : ℚ))) *
    sumTo Y.rows (fun i => sumTo Y.cols (fun j =>
      match EV.add
        (EV.mul (EV.num (Y.entry i j)) (log (YHat.entry i j)))
        (EV.mul (EV.num (1 - Y.entry i j)) (log (1 - YHat.entry i j))) with
      | EV.num q => q
      | _ => 0))

/-- np.random.randn(r, c) with an abstract sample stream: fails exactly when a
dimension is negative (numpy ValueError), and otherwise returns an (r, c)
array of samples.  The stream is indexed by the layer that draws. -/
def np_randn (rand : ℕ → ℕ → ℕ → ℚ) (l : ℕ) (r c : ℤ) : Option Mat :=
  if 0 ≤ r ∧ 0 ≤ c then some ⟨r.toNat, c.toNat, fun i j => rand l i j⟩ else none

/-- The construction loop of DeepNet.__init__ (:25-28), walking the adjacent
dimension pairs of the architecture: W{l} = np.random.randn(a[l], a[l-1])*0.01
and b{l} = np.zeros((a[l], 1)).  No validation of any kind is performed. -/
def initLayers (rand : ℕ → ℕ → ℕ → ℚ) (l : ℕ) : List ℤ → Option Params
  | a :: b :: t =>
    match np_randn rand l b a with
    | none => none
    | some W =>
      match initLayers rand (l + 1) (b :: t) with
      | none => none
      | some rest =>
        some ((Mat.scale (1 / 100) W, ⟨b.toNat, 1, fun _ _ => 0⟩) :: rest)
  | _ => some []

/-- DeepNet.__init__ (:8-28): architecture dimensions are machine integers,
so they may be negative. -/
def DeepNet_init (rand : ℕ → ℕ → ℕ → ℚ) (architecture : List ℤ) : Option Params :=
  initLayers rand 1 architecture

/-- True exactly when every adjacent pair of dimensions is nonnegative, which
is when every np.random.randn call of the construction loop succeeds. -/
def adjacentNonneg : List ℤ → Bool
  | a :: b :: t => decide (0 ≤ a) && decide (0 ≤ b) && adjacentNonneg (b :: t)
  | _ => true

/-- DeepNet.update_params (:174-190): W{l} := W{l} - eta*dW{l} and
b{l} := b{l} - eta*db{l} for l = 1 .. L, where L is the parameter count and
the gradient triples are (dA, dW, db) as the backward engine produces them.
The subtraction has numpy broadcast semantics: a mismatched-but-broadcastable
gradient silently replaces the parameter with an array of the broadcast
shape, and an incompatible one raises — the none branch (a missing gradient
entry is a KeyError, also none; the source's partial in-place mutation before
a raise is unobservable afterwards, since the raise ends training). -/
def update_params : Params → List (Mat × Mat × Mat) → ℚ → Option Params
  | [], _, _ => some []
  | _ :: _, [], _ => none
  | p :: pt, g :: gt, eta =>
    match Mat.ewSub p.1 (Mat.scale eta g.2.1), Mat.ewSub p.2 (Mat.scale eta g.2.2) with
    | some W2, some b2 =>
      match update_params pt gt eta with
      | some rest => some ((W2, b2) :: rest)
      | none => none
    | _, _ => none

/-- Sequential application of a list of gradient sets, one update call per
element, stopping at the first numpy error. -/
def applyUpdates (eta : ℚ) : List (List (Mat × Mat × Mat)) → Params → Option Params
  | [], P => some P
  | gs :: rest, P =>
    match update_params P gs eta with
    | some P2 => applyUpdates eta rest P2
    | none => none

/-- The shapes of a parameter list, layer by layer. -/
def paramShapes (ps : Params) : List ((ℕ × ℕ) × (ℕ × ℕ)) :=
  ps.map (fun p => ((p.1.rows, p.1.cols), (p.2.rows, p.2.cols)))

/-- The claim C7 side condition: gradient arguments have exactly the shapes
of the parameters they update. -/
def gradsMatchShapes (gs : List (Mat × Mat × Mat)) (P : Params) : Prop :=
  gs.length = P.length ∧
  ∀ k, k < P.length →
    (gs.getD k triple0).2.1.rows = (P.getD k pair0).1.rows ∧
    (gs.getD k triple0).2.1.cols = (P.getD k pair0).1.cols ∧
    (gs.getD k triple0).2.2.rows = (P.getD k pair0).2.rows ∧
    (gs.getD k triple0).2.2.cols = (P.getD k pair0).2.cols

/-- Equal row counts; the batch-size axis (columns) is left free. -/
def rowsEq (A B : Mat) : Prop := A.rows = B.rows

/-- Equal shapes. -/
def sameShape (A B : Mat) : Prop := A.rows = B.rows ∧ A.cols = B.cols

/-- Two caches produced from the same layer parameters on inputs of the same
feature dimension: equal weights, biases and derivative tags, equal row
counts everywhere, columns (the batch size) free. -/
def cacheRowsEq (c c2 : Cache) : Prop :=
  rowsEq c.A_prev c2.A_prev ∧ c.W = c2.W ∧ c.b = c2.b ∧
  rowsEq c.Z c2.Z ∧ c.d_func = c2.d_func

/-- Gradient triples whose dW and db have equal shapes (dA, which only feeds
the next backward step, needs equal rows only). -/
def tripleGradShapesEq (g g2 : Mat × Mat × Mat) : Prop :=
  rowsEq g.1 g2.1 ∧ sameShape g.2.1 g2.2.1 ∧ sameShape g.2.2 g2.2.2

/-- Parameter shapes match a unit-count sequence (element 0 the input
dimension, elements 1.. the layer widths), as §3 of the spec states. -/
def shapesOK (units : List ℕ) (ps : Params) : Prop :=
  ps.length + 1 = units.length ∧
  ∀ l, l < ps.length →
    (ps.getD l pair0).1.rows = units.getD (l + 1) 0 ∧
    (ps.getD l pair0).1.cols = units.getD l 0 ∧
    (ps.getD l pair0).2.rows = units.getD (l + 1) 0 ∧
    (ps.getD l pair0).2.cols = 1

/-- The slice starts range(0, m, mini_batch_size) of DeepNet.SGD (:144). -/
def mini_batch_starts (m s : ℕ) : List ℕ :=
  (List.range ((m + s - 1) / s)).map (fun i => i * s)

/-- The mini-batch partition of DeepNet.SGD (:141-144): contiguous slices
X[k:k+s] for k in range(0, m, s), with m the dataset size. -/
def mini_batches {α : Type} (xs : List α) (s : ℕ) : List (List α) :=
  (mini_batch_starts xs.length s).map (fun k => (xs.drop k).take s)

/-- np.argmax on a 1-d array: index of the first maximal entry. -/
def argmaxGo : List ℚ → ℕ → ℕ → ℚ → ℕ
  | [], _, bi, _ => bi
  | x :: t, k, bi, bv =>
    if bv < x then argmaxGo t (k + 1) k x else argmaxGo t (k + 1) bi bv

def argmaxList : List ℚ → ℕ
  | [] => 0
  | x :: t => argmaxGo t 1 0 x

/-- np.argmax(A, axis=1): one index per row, over that row's columns. -/
def Mat.argmaxAxis1 (A : Mat) : List ℕ :=
  (List.range A.rows).map (fun i => argmaxList ((List.range A.cols).map (fun j => A.entry i j)))

/-- np.asarray(xs).T for a list of equal-length numeric rows: the
features-major array whose column j is example j. -/
def transposeOf (xs : List (List ℚ)) : Mat :=
  ⟨(xs.headD []).length, xs.length, fun i j => (xs.getD j []).getD i 0⟩

/-- DeepNet.predict (:229-241).  The source prints the reduction
np.sum((np.argmax(probs.T, axis=1) == np.argmax(y, axis=1)) / m) and returns
None; the value modelled here is the printed accuracy.  np.argmax(y, axis=1)
is taken on the TRANSPOSED label array, so it produces one index per class
(the argmax across examples); comparing it against the per-example prediction
indices is a numpy broadcast error when the two lengths differ — the none
branch — and an elementwise comparison of unrelated quantities otherwise. -/
def predict (AM : Activations) (params : Params) (X y : List (List ℚ)) : Option ℚ :=
  let XT := transposeOf X
  let yT := transposeOf y
  let m := XT.cols
  match feedforward AM params XT with
  | none => none
  | some r =>
    let a := Mat.argmaxAxis1 (Mat.transpose r.1)
    let b := Mat.argmaxAxis1 yT
    if a.length = b.length then
      some ((a.zip b).foldl (fun acc p => acc + (if p.1 = p.2 then 1 / (m : ℚ) else 0)) 0)
    else none

/-- The claim C9 reading of the evaluator: mean rate, over the examples, at
which the argmax of the predicted class distribution (a column of the network
output) equals the argmax of that example's one-hot label. -/
def predict_claim (AM : Activations) (params : Params) (X y : List (List ℚ)) : Option ℚ :=
  let XT := transposeOf X
  let m := XT.cols
  match feedforward AM params XT with
  | none => none
  | some r =>
    some (sumTo m (fun j =>
      if argmaxList ((List.range r.1.rows).map (fun i => r.1.entry i j))
          = argmaxList (y.getD j []) then 1 / (m : ℚ) else 0))

/-- Applying a permutation, given as an index list, to a dataset. -/
def applyPerm (p : List ℕ) (xs : List (List ℚ)) : List (List ℚ) :=
  p.map (fun i => xs.getD i [])

/-- One mini-batch step of DeepNet.SGD (:146-165): transpose the batch,
feedforward, cost (recorded every 100th batch), backpropagate, update. -/
def sgdBatchStep (AM : Activations) (log : ℚ → EV) (eta : ℚ) (k : ℕ)
    (pc : Params × List ℚ) (Xb yb : List (List ℚ)) : Option (Params × List ℚ) :=
  let XT := transposeOf Xb
  let yT := transposeOf yb
  match feedforward AM pc.1 XT with
  | none => none
  | some r =>
    let cost := get_cost log r.1 yT
    match backpropagate AM r.1 yT r.2 with
    | none => none
    | some grads =>
      (update_params pc.1 grads eta).map
        (fun ps2 => (ps2, if k % 100 = 0 then pc.2 ++ [cost] else pc.2))

/-- One epoch of DeepNet.SGD (:135-165): shuffle X and y jointly with the
hardwired seed 0 (sklearn.utils.shuffle is not under src/; modelled from the
spec as a supplied deterministic-seed permutation capability, seed and dataset
size in, index permutation out), slice into mini-batches, and run the batch
steps in order.  The epoch state is (X, y, params, recorded costs). -/
def sgdEpoch (AM : Activations) (log : ℚ → EV) (shuf : ℕ → ℕ → List ℕ) (eta : ℚ)
    (s m : ℕ) (st : List (List ℚ) × List (List ℚ) × Params × List ℚ) :
    Option (List (List ℚ) × List (List ℚ) × Params × List ℚ) :=
  let p := shuf 0 m
  let X := applyPerm p st.1
  let y := applyPerm p st.2.1
  let bs := (mini_batch_starts m s).map (fun k => ((X.drop k).take s, (y.drop k).take s))
  let inner := bs.enum.foldl (fun acc kb =>
      match acc with
      | none => none
      | some pc => sgdBatchStep AM log eta kb.1 pc kb.2.1 kb.2.2)
    (some (st.2.2.1, st.2.2.2))
  inner.map (fun pc => (X, y, pc.1, pc.2))

/-- DeepNet.SGD (:123-172).  rng is the ambient global numpy random stream:
it is threaded so that any use of randomness after construction would have to
consume it, and the body consumes none — the only shuffle capability call is
with the literal seed 0.  After each epoch the evaluator runs against
test_data when it is supplied (a print; parameters are not touched, but its
numpy error aborts training, hence the none propagation).  The returned value
is the final parameter list and the recorded cost samples (the matplotlib
display of the source is an external side effect of the latter). -/
def SGD (AM : Activations) (log : ℚ → EV) (shuf : ℕ → ℕ → List ℕ) (rng : ℕ → ℚ)
    (training : List (List ℚ) × List (List ℚ)) (num_epochs mini_batch_size : ℕ)
    (eta : ℚ) (test_data : Option (List (List ℚ) × List (List ℚ)))
    (params : Params) : Option (Params × List ℚ) :=
  let m := training.1.length
  let fin := (List.range num_epochs).foldl (fun acc _ =>
      match acc with
      | none => none
      | some st =>
        match sgdEpoch AM log shuf eta mini_batch_size m st with
        | none => none
        | some st2 =>
          match test_data with
          | none => some st2
          | some td =>
            match predict AM st2.2.2.1 td.1 td.2 with
            | none => none
            | some _ => some st2)
    (some (training.1, training.2, params, ([] : List ℚ)))
  fin.map (fun st => (st.2.2.1, st.2.2.2))

/-! Concrete fixtures used by the closed evaluation theorems below.  The
activation record instantiates the abstract module with simple rational
functions (identity activations, constant-one derivatives); the abstract log
is instantiated with a function that, like np.log, sends 0 to -Inf and 1 to 0. -/

def AMtest : Activations := ⟨fun x => x, fun _ => 1, fun x => x, fun _ => 1⟩

def logTest : ℚ → EV :=
  fun q => if q = 0 then EV.ninf else if q = 1 then EV.num 0 else EV.num 1

/-- A 3-layer network (architecture [1,1,1,1]) with weights 1, 3, 2 and zero
biases. -/
def paramsC1 : Params :=
  [(⟨1, 1, fun _ _ => 1⟩, ⟨1, 1, fun _ _ => 0⟩),
   (⟨1, 1, fun _ _ => 3⟩, ⟨1, 1, fun _ _ => 0⟩),
   (⟨1, 1, fun _ _ => 2⟩, ⟨1, 1, fun _ _ => 0⟩)]

def inC1 : Mat := ⟨1, 1, fun _ _ => 1⟩

def labC1 : Mat := ⟨1, 1, fun _ _ => 1⟩

def yhatC2a : Mat := ⟨1, 1, fun _ _ => 0⟩

def yC2a : Mat := ⟨1, 1, fun _ _ => 1⟩

def yhatC2b : Mat := ⟨2, 1, fun _ _ => 1 / 2⟩

def yC2b : Mat := ⟨2, 1, fun i _ => if i = 0 then 1 else 0⟩

/-- A single sigmoid layer cache over a batch of two examples. -/
def cacheC3 : Cache :=
  ⟨⟨1, 2, fun _ _ => 1⟩, ⟨1, 1, fun _ _ => 1⟩, ⟨1, 1, fun _ _ => 0⟩,
   ⟨1, 2, fun _ _ => 1⟩, DFn.d_sigmoid⟩

def alC3 : Mat := ⟨1, 2, fun _ _ => 1 / 2⟩

/-- Labels handed over as a (2,1) column, while the output above is (1,2). -/
def yC3 : Mat := ⟨2, 1, fun i _ => if i = 0 then 0 else 1⟩

/-- A 2-class single layer network: W = 0, b = (0, 1). -/
def paramsC9 : Params :=
  [(⟨2, 1, fun _ _ => 0⟩, ⟨2, 1, fun i _ => if i = 0 then 0 else 1⟩)]

def xC9 : List (List ℚ) := [[0], [0]]

/-- Two examples, both with one-hot label class 1. -/
def yC9 : List (List ℚ) := [[0, 1], [0, 1]]

def xC9b : List (List ℚ) := [[0], [0], [0]]

def yC9b : List (List ℚ) := [[0, 1], [0, 1], [0, 1]]

/-- Evaluation lemmas for the finite reduction at small sizes. -/
lemma sumTo_zero (f : ℕ → ℚ) : sumTo 0 f = 0 := rfl

lemma sumTo_one (f : ℕ → ℚ) : sumTo 1 f = f 0 := zero_add _

lemma sumTo_two (f : ℕ → ℚ) : sumTo 2 f = f 0 + f 1 := by
  rw [show sumTo 2 f = sumTo 1 f + f 1 from rfl, sumTo_one]

lemma sumTo_three (f : ℕ → ℚ) : sumTo 3 f = f 0 + f 1 + f 2 := by
  rw [show sumTo 3 f = sumTo 2 f + f 2 from rfl, sumTo_two]

/-- C1 (code_bug): evaluation of the Backward Engine at a concrete 3-layer
network.  Forward propagation on input 1 gives caches with Z values 1, 3, 6
and AL = 6; with label 1 the output gradient is -1/6 and layer 3's backward
step yields dA_prev = -1/3.  The source then hands that same -1/3 (stored as
grads[dA 3]) to layer 2 AND to layer 1, so the code's layer-1 weight gradient
is -1/3; the chained propagation the claim describes gives layer 2's
dA_prev = -1 and hence layer-1 weight gradient -1. -/
theorem backprop_reuses_output_gradient_eval :
    ((feedforward AMtest paramsC1 inC1).bind
        (fun r => backpropagate AMtest r.1 labC1 r.2)).map
      (fun g => (g.headD triple0).2.1.entry 0 0) = some (-(1 / 3)) ∧
    ((feedforward AMtest paramsC1 inC1).map
      (fun r => ((backpropagate_chain AMtest r.1 labC1 r.2).headD triple0).2.1.entry 0 0))
        = some (-1) ∧
    (-(1 / 3) : ℚ) ≠ -1 := by
  refine ⟨?_, ?_, by norm_num⟩ <;>
  · simp only [feedforward, ffHidden, activate, backpropagate, backpropagateCore,
      backpropagate_chain, chainSteps, get_prevlayer_gradient, dALgrad, Mat.mul,
      Mat.addCol, Mat.map, Mat.had, Mat.scale, Mat.transpose, Mat.rowsum,
      Mat.reshape, sumTo_zero, sumTo_one, sumTo_two, sumTo_three, paramsC1, inC1,
      labC1, triple0, mat0, AMtest, Activations.apply, Activations.applyD,
      List.getLast?, List.getLast, List.dropLast, List.map, List.headD,
      List.reverse, List.reverseAux, List.append_eq, List.append,
      Option.bind, Option.map]
    norm_num [sumTo_zero, sumTo_one, sumTo_two, sumTo_three]

/-- C2 (counterexample): at YHat = [[0]], Y = [[1]] the only term of the sum
is 1·log 0 + 0·log 1 = -Inf, which np.nan_to_num turns into the huge finite
-FMAX, not into 0: the code's cost is FMAX while the claim's
neutralize-to-zero reading gives 0.  At YHat a (2,1) half-column against
one-hot Y, the code divides by len(Y) = 2 (the row count) where the claim's
batch size is 1: the code gives -1, the claim -2. -/
theorem get_cost_claim_counterexample :
    get_cost logTest yhatC2a yC2a = FMAX ∧
    get_cost_claim logTest yhatC2a yC2a = 0 ∧
    FMAX ≠ 0 ∧
    get_cost logTest yhatC2b yC2b = -1 ∧
    get_cost_claim logTest yhatC2b yC2b = -2 := by
  refine ⟨?_, ?_, by norm_num [FMAX], ?_, ?_⟩ <;>
  · simp only [get_cost, get_cost_claim, logTest, yhatC2a, yC2a, yhatC2b, yC2b,
      sumTo_zero, sumTo_one, sumTo_two, sumTo_three, nan_to_num, EV.add, EV.mul]
    norm_num [EV.add, EV.mul, nan_to_num, FMAX, sumTo_zero, sumTo_one, sumTo_two,
      sumTo_three]

/-- C2 (amended): the cost the source computes is -1/len(Y) times the sum of
the sanitized terms, where len(Y) is Y's first dimension (the label row
count, not the batch size) and sanitization is np.nan_to_num: NaN terms
(0·log 0) become 0 but infinite terms become the largest finite float with
the infinity's sign. -/
theorem get_cost_amended_holds (log : ℚ → EV) (YHat Y : Mat) :
    get_cost log YHat Y
      = -(1 / ((Y.rows : ℚ))) *
          sumTo Y.rows (fun i => sumTo Y.cols (fun j =>
            nan_to_num (EV.add
              (EV.mul (EV.num (Y.entry i j)) (log (YHat.entry i j)))
              (EV.mul (EV.num (1 - Y.entry i j)) (log (1 - YHat.entry i j)))))) ∧
    nan_to_num EV.nan = 0 ∧
    nan_to_num EV.pinf = FMAX ∧
    nan_to_num EV.ninf = -FMAX ∧
    0 < FMAX := by
  exact ⟨rfl, rfl, rfl, rfl, by norm_num [FMAX]⟩

/-- Reshaping twice to the same shape is the same as reshaping once. -/
theorem Mat.reshape_reshape (r c : ℕ) (A : Mat) :
    Mat.reshape r c (Mat.reshape r c A) = Mat.reshape r c A := by
  simp only [Mat.reshape]
  congr 1
  funext i j
  have hX : (i * c + j) / c * c + (i * c + j) % c = i * c + j := by
    rw [Nat.mul_comm, Nat.div_add_mod]
  rw [hX]

/-- C3 (counterexample): backpropagate applied to a (2,1) label column and a
(1,2) output succeeds and silently row-major-reshapes the labels first: it
returns weight gradient 0, whereas the no-internal-reshape reading of the
routine returns 2 on the same input.  So the source does reshape Y
internally, and callers need not do it. -/
theorem backpropagate_reshape_counterexample :
    (backpropagate AMtest alC3 yC3 [cacheC3]).map
      (fun g => (g.headD triple0).2.1.entry 0 0) = some 0 ∧
    (backpropagate_noreshape AMtest alC3 yC3 [cacheC3]).map
      (fun g => (g.headD triple0).2.1.entry 0 0) = some 2 ∧
    (0 : ℚ) ≠ 2 ∧
    ¬(yC3.rows = alC3.rows ∧ yC3.cols = alC3.cols) := by
  refine ⟨?_, ?_, by norm_num, by decide⟩ <;>
  · simp only [backpropagate, backpropagate_noreshape, backpropagateCore,
      get_prevlayer_gradient, dALgrad, Mat.mul, Mat.addCol, Mat.map, Mat.had,
      Mat.scale, Mat.transpose, Mat.rowsum, Mat.reshape, sumTo_zero, sumTo_one,
      sumTo_two, sumTo_three, cacheC3, alC3, yC3, triple0, mat0, AMtest,
      Activations.apply, Activations.applyD, List.getLast?, List.getLast,
      List.dropLast, List.map, List.headD, Option.map]
    norm_num [sumTo_zero, sumTo_one, sumTo_two, sumTo_three]

/-- C3 (amended): backpropagate itself reshapes Y to AL's shape on entry, so
it coincides with the no-reshape routine applied to the reshaped labels, and
a caller that pre-reshapes changes nothing. -/
theorem backpropagate_internal_reshape (AM : Activations) (AL Y : Mat)
    (caches : List Cache) :
    backpropagate AM AL Y caches
      = backpropagate_noreshape AM AL (Mat.reshape AL.rows AL.cols Y) caches ∧
    backpropagate AM AL (Mat.reshape AL.rows AL.cols Y) caches
      = backpropagate AM AL Y caches := by
  constructor
  · rfl
  · show backpropagateCore AM AL (Mat.reshape AL.rows AL.cols (Mat.reshape AL.rows AL.cols Y)) caches = _
    rw [Mat.reshape_reshape]
    rfl

/-- C4 (counterexample): construction with the 1-entry architecture [3]
succeeds and returns an empty parameter set, and construction with a zero
dimension, architecture [2, 0], also succeeds; the claim requires both to
fail with InvalidArchitecture. -/
theorem init_no_validation_counterexample :
    DeepNet_init (fun _ _ _ => 0) [3] = some [] ∧
    (DeepNet_init (fun _ _ _ => 0) [2, 0]).isSome = true := by
  exact ⟨rfl, rfl⟩

/-- Construction succeeds exactly when every adjacent pair of architecture
dimensions is nonnegative: the loop performs no validation of its own and
only np.random.randn can fail, on a negative dimension. -/
theorem initLayers_isSome_eq (rand : ℕ → ℕ → ℕ → ℚ) :
    ∀ (l : ℕ) (arch : List ℤ),
      (initLayers rand l arch).isSome = adjacentNonneg arch := by
  intro l arch
  induction arch generalizing l with
  | nil => rfl
  | cons a t ih =>
    cases t with
    | nil => rfl
    | cons b t2 =>
      by_cases hb : (0 : ℤ) ≤ b
      · by_cases ha : (0 : ℤ) ≤ a
        · simp only [initLayers, np_randn, if_pos (And.intro hb ha), adjacentNonneg,
            decide_eq_true ha, decide_eq_true hb, Bool.true_and]
          rw [← ih (l + 1)]
          cases heq : initLayers rand (l + 1) (b :: t2) <;> simp [heq]
        · simp only [initLayers, np_randn, adjacentNonneg]
          rw [if_neg (by tauto), decide_eq_false ha]
          simp
      · simp only [initLayers, np_randn, adjacentNonneg]
        rw [if_neg (by tauto), decide_eq_false hb]
        simp

/-- C4 (amended): DeepNet construction performs no architecture validation:
it succeeds exactly when every adjacent dimension pair is nonnegative, so
short architectures and zero dimensions construct fine and only a negative
dimension aborts (inside the array allocator, with no InvalidArchitecture
check anywhere). -/
theorem init_ok_iff_nonneg_dims (rand : ℕ → ℕ → ℕ → ℚ) (arch : List ℤ) :
    (DeepNet_init rand arch).isSome = adjacentNonneg arch :=
  initLayers_isSome_eq rand 1 arch

/-- C9 (code_bug): evaluation of the Evaluator at the concrete 2-class
single-layer network that predicts class 1 for every input.  On two examples
whose one-hot labels are both class 1 the predictions are all correct, yet
the source prints accuracy 0: np.argmax(y, axis=1) is taken on the
TRANSPOSED labels, giving the per-class argmax over examples ([0,0]) instead
of the per-example argmax over classes ([1,1]).  On three examples the two
compared index arrays have lengths 3 and 2 and the numpy comparison is not
even well-formed. -/
theorem predict_argmax_axis_eval :
    predict AMtest paramsC9 xC9 yC9 = some 0 ∧
    predict_claim AMtest paramsC9 xC9 yC9 = some 1 ∧
    (0 : ℚ) ≠ 1 ∧
    predict AMtest paramsC9 xC9b yC9b = none := by
  refine ⟨?_, ?_, by norm_num, ?_⟩ <;>
  · simp only [predict, predict_claim, transposeOf, feedforward, ffHidden,
      activate, Mat.argmaxAxis1, Mat.transpose, Mat.mul, Mat.addCol, Mat.map,
      argmaxList, argmaxGo, sumTo_zero, sumTo_one, sumTo_two, sumTo_three,
      paramsC9, xC9, yC9, xC9b, yC9b, AMtest, Activations.apply, mat0,
      List.getLast?, List.getLast, List.dropLast, List.map, List.headD,
      List.getD, List.range, List.range.loop, List.zip, List.zipWith,
      List.foldl, List.length, Option.map]
    norm_num [sumTo_zero, sumTo_one, sumTo_two, sumTo_three, argmaxList,
      argmaxGo, List.getD]

/-! List indexing helpers used by the structural proofs. -/

lemma getD_succ {α : Type} (a : α) (t : List α) (k : ℕ) (d : α) :
    (a :: t).getD (k + 1) d = t.getD k d := rfl

lemma getD_append_left {α : Type} (d : α) :
    ∀ (l l2 : List α) (n : ℕ), n < l.length → (l ++ l2).getD n d = l.getD n d := by
  intro l
  induction l with
  | nil => intro l2 n h; simp at h
  | cons a t ih =>
    intro l2 n h
    cases n with
    | zero => rfl
    | succ k => exact ih l2 k (by simp only [List.length_cons] at h; omega)

lemma getD_append_last {α : Type} (d : α) :
    ∀ (l : List α) (x : α), (l ++ [x]).getD l.length d = x := by
  intro l
  induction l with
  | nil => intro x; rfl
  | cons a t ih => intro x; exact ih x

lemma getD_dropLast {α : Type} (d : α) :
    ∀ (l : List α) (k : ℕ), k + 1 < l.length → l.dropLast.getD k d = l.getD k d := by
  intro l
  induction l with
  | nil => intro k h; simp at h
  | cons a t ih =>
    intro k h
    cases t with
    | nil => simp at h
    | cons b t2 =>
      cases k with
      | zero => rfl
      | succ k2 =>
        show (b :: t2).dropLast.getD k2 d = (b :: t2).getD k2 d
        exact ih k2 (by simp only [List.length_cons] at h ⊢; omega)

lemma getLast?_eq_getD {α : Type} (d : α) :
    ∀ (l : List α), l ≠ [] → l.getLast? = some (l.getD (l.length - 1) d) := by
  intro l
  induction l with
  | nil => intro h; exact absurd rfl h
  | cons a t ih =>
    intro _
    cases t with
    | nil => rfl
    | cons b t2 =>
      rw [List.getLast?_cons_cons, ih (by simp)]
      have h1 : (b :: t2).length - 1 = t2.length := by simp
      have h2 : (a :: b :: t2).length - 1 = t2.length + 1 := by simp
      rw [h1, h2]
      rfl

/-! Structural facts about the forward relu loop. -/

lemma ffHidden_length (AM : Activations) :
    ∀ (hs : List (Mat × Mat)) (A : Mat), (ffHidden AM hs A).2.length = hs.length := by
  intro hs
  induction hs with
  | nil => intro A; rfl
  | cons p t ih =>
    intro A
    simp only [ffHidden, List.length_cons]
    rw [ih]

lemma ffHidden_cols (AM : Activations) :
    ∀ (hs : List (Mat × Mat)) (A : Mat), (ffHidden AM hs A).1.cols = A.cols := by
  intro hs
  induction hs with
  | nil => intro A; rfl
  | cons p t ih =>
    intro A
    simp only [ffHidden]
    rw [ih]
    rfl

lemma ffHidden_fields (AM : Activations) :
    ∀ (hs : List (Mat × Mat)) (A : Mat) (k : ℕ), k < hs.length →
      ((ffHidden AM hs A).2.getD k cache0).W = (hs.getD k pair0).1 ∧
      ((ffHidden AM hs A).2.getD k cache0).b = (hs.getD k pair0).2 ∧
      ((ffHidden AM hs A).2.getD k cache0).d_func = DFn.d_relu := by
  intro hs
  induction hs with
  | nil => intro A k h; simp at h
  | cons p t ih =>
    intro A k h
    cases k with
    | zero => exact ⟨rfl, rfl, rfl⟩
    | succ k2 =>
      show ((ffHidden AM t (activate AM A p.1 p.2 ActivFn.relu).1).2.getD k2 cache0).W
          = (t.getD k2 pair0).1 ∧ _ ∧ _
      exact ih _ k2 (by simp only [List.length_cons] at h; omega)

lemma ffHidden_first_Aprev (AM : Activations) (hs : List (Mat × Mat)) (A : Mat)
    (h : hs ≠ []) : ((ffHidden AM hs A).2.getD 0 cache0).A_prev = A := by
  cases hs with
  | nil => exact absurd rfl h
  | cons p t => rfl

lemma ffHidden_chain (AM : Activations) :
    ∀ (hs : List (Mat × Mat)) (A : Mat) (k : ℕ), k + 1 < hs.length →
      ((ffHidden AM hs A).2.getD (k + 1) cache0).A_prev
        = Mat.map (AM.apply ActivFn.relu) (((ffHidden AM hs A).2.getD k cache0).Z) := by
  intro hs
  induction hs with
  | nil => intro A k h; simp at h
  | cons p t ih =>
    intro A k h
    cases k with
    | zero =>
      have ht : t ≠ [] := by
        intro hcon
        subst hcon
        simp at h
      show ((ffHidden AM t (activate AM A p.1 p.2 ActivFn.relu).1).2.getD 0 cache0).A_prev = _
      rw [ffHidden_first_Aprev AM t _ ht]
      rfl
    | succ k2 =>
      show ((ffHidden AM t (activate AM A p.1 p.2 ActivFn.relu).1).2.getD (k2 + 1) cache0).A_prev = _
      exact ih _ k2 (by simp only [List.length_cons] at h; omega)

lemma ffHidden_out (AM : Activations) :
    ∀ (hs : List (Mat × Mat)) (A : Mat), hs ≠ [] →
      (ffHidden AM hs A).1
        = Mat.map (AM.apply ActivFn.relu)
            (((ffHidden AM hs A).2.getD (hs.length - 1) cache0).Z) := by
  intro hs
  induction hs with
  | nil => intro A h; exact absurd rfl h
  | cons p t ih =>
    intro A _
    cases t with
    | nil => rfl
    | cons b t2 => exact ih (activate AM A p.1 p.2 ActivFn.relu).1 (List.cons_ne_nil b t2)

/-- C5: the per-layer backward step computes exactly the claimed quantities,
entrywise: dZ = dA ⊙ derivative(Z) with the derivative recorded in the
layer's own cache, dW = (1/m)·dZ·A_prev-transposed, db = (1/m) times the sum
of dZ over the batch columns, dA_prev = W-transposed·dZ, with m the batch
size read off the cached A_prev; and the step's activ_fn argument is dead,
exactly as in the source. -/
theorem get_prevlayer_gradient_formulas (AM : Activations) (dA : Mat)
    (cache : Cache) (activ_fn : ActivFn) :
    (∀ i j, (get_prevlayer_gradient AM dA cache activ_fn).2.1.entry i j
      = (1 / ((cache.A_prev.cols : ℕ) : ℚ)) *
          sumTo dA.cols (fun k =>
            dA.entry i k * AM.applyD cache.d_func (cache.Z.entry i k)
              * cache.A_prev.entry j k)) ∧
    (∀ i, (get_prevlayer_gradient AM dA cache activ_fn).2.2.entry i 0
      = (1 / ((cache.A_prev.cols : ℕ) : ℚ)) *
          sumTo dA.cols (fun k =>
            dA.entry i k * AM.applyD cache.d_func (cache.Z.entry i k))) ∧
    (∀ i j, (get_prevlayer_gradient AM dA cache activ_fn).1.entry i j
      = sumTo cache.W.rows (fun k =>
          cache.W.entry k i
            * (dA.entry k j * AM.applyD cache.d_func (cache.Z.entry k j)))) ∧
    get_prevlayer_gradient AM dA cache activ_fn
      = get_prevlayer_gradient AM dA cache ActivFn.relu ∧
    (get_prevlayer_gradient AM dA cache activ_fn).2.1.rows = dA.rows ∧
    (get_prevlayer_gradient AM dA cache activ_fn).2.1.cols = cache.A_prev.rows ∧
    (get_prevlayer_gradient AM dA cache activ_fn).2.2.cols = 1 ∧
    (∀ (params : Params) (A0 : Mat) (r : Mat × List Cache),
      feedforward AM params A0 = some r →
        (∀ k, k + 1 < r.2.length → (r.2.getD k cache0).d_func = DFn.d_relu) ∧
        (r.2.getD (r.2.length - 1) cache0).d_func = DFn.d_sigmoid) := by
  refine ⟨fun _ _ => rfl, fun _ => rfl, fun _ _ => rfl, rfl, rfl, rfl, rfl, ?_⟩
  intro params A0 r hre
  cases hL : params.getLast? with
  | none =>
    rw [feedforward, hL] at hre
    exact Option.noConfusion hre
  | some pL =>
    simp only [feedforward, hL, Option.some.injEq] at hre
    subst hre
    constructor
    · intro k hk
      have hk2 : k < (ffHidden AM params.dropLast A0).2.length := by
        simp only [List.length_append, List.length_singleton] at hk
        omega
      rw [getD_append_left cache0 _ _ k hk2]
      exact (ffHidden_fields AM params.dropLast A0 k
        (by rw [← ffHidden_length AM]; exact hk2)).2.2
    · have hl1 : ((ffHidden AM params.dropLast A0).2
          ++ [(activate AM (ffHidden AM params.dropLast A0).1 pL.1 pL.2 ActivFn.sigmoid).2]).length - 1
          = (ffHidden AM params.dropLast A0).2.length := by
        simp
      rw [hl1, getD_append_last]
      rfl

/-- C6: for every parameter set matching a unit-count sequence and every input
batch of matching input dimension and batch size n, feedforward succeeds and:
the output has shape (units[L], n); there are exactly L caches, ordered layer
1 .. layer L (cache l holds layer l's weight and bias, and its input is the
previous layer's output, starting at the batch itself); caches 1 .. L-1 carry
the rectifying derivative and the activation applied to each hidden
pre-activation is the rectifying one, while cache L carries the sigmoid
derivative and the output is the sigmoid activation of the last
pre-activation. -/
theorem feedforward_policy_and_shapes (AM : Activations) (units : List ℕ)
    (params : Params) (A0 : Mat) (n : ℕ) (hOK : shapesOK units params)
    (hne : params ≠ []) (hin : A0.rows = units.getD 0 0) (hcols : A0.cols = n) :
    ∃ AL caches, feedforward AM params A0 = some (AL, caches) ∧
      AL.rows = units.getD params.length 0 ∧ AL.cols = n ∧
      caches.length = params.length ∧
      (∀ k, k < caches.length →
        (caches.getD k cache0).W = (params.getD k pair0).1 ∧
        (caches.getD k cache0).b = (params.getD k pair0).2) ∧
      (∀ k, k + 1 < caches.length → (caches.getD k cache0).d_func = DFn.d_relu) ∧
      (caches.getD (caches.length - 1) cache0).d_func = DFn.d_sigmoid ∧
      (caches.getD 0 cache0).A_prev = A0 ∧
      (∀ k, k + 1 < caches.length →
        (caches.getD (k + 1) cache0).A_prev
          = Mat.map (AM.apply ActivFn.relu) ((caches.getD k cache0).Z)) ∧
      AL = Mat.map (AM.apply ActivFn.sigmoid)
        ((caches.getD (caches.length - 1) cache0).Z) := by
  cases hL : params.getLast? with
  | none => exact absurd (List.getLast?_eq_none_iff.mp hL) hne
  | some pL =>
    have hLen1 : 1 ≤ params.length := List.length_pos_iff_ne_nil.mpr hne
    have hpl : pL = params.getD (params.length - 1) pair0 :=
      Option.some.inj (hL.symm.trans (getLast?_eq_getD pair0 params hne))
    have hcsLen : (ffHidden AM params.dropLast A0).2.length = params.length - 1 := by
      rw [ffHidden_length, List.length_dropLast]
    refine ⟨(activate AM (ffHidden AM params.dropLast A0).1 pL.1 pL.2 ActivFn.sigmoid).1,
      (ffHidden AM params.dropLast A0).2
        ++ [(activate AM (ffHidden AM params.dropLast A0).1 pL.1 pL.2 ActivFn.sigmoid).2],
      ?_, ?_, ?_, ?_, ?_, ?_, ?_, ?_, ?_, ?_⟩
    · simp only [feedforward, hL]
    · show pL.1.rows = units.getD params.length 0
      rw [hpl]
      have h3 := (hOK.2 (params.length - 1) (by omega)).1
      rw [h3]
      congr 1
      omega
    · show (ffHidden AM params.dropLast A0).1.cols = n
      rw [ffHidden_cols]
      exact hcols
    · simp only [List.length_append, hcsLen, List.length_singleton]
      omega
    · intro k hk
      have hk2 : k < params.length := by
        simp only [List.length_append, hcsLen, List.length_singleton] at hk
        omega
      rcases Nat.lt_or_ge k (params.length - 1) with hlt | hge
      · rw [getD_append_left cache0 _ _ k (by rw [hcsLen]; exact hlt)]
        have hf := ffHidden_fields AM params.dropLast A0 k
          (by rw [List.length_dropLast]; exact hlt)
        refine ⟨?_, ?_⟩
        · rw [hf.1, getD_dropLast pair0 params k (by omega)]
        · rw [hf.2.1, getD_dropLast pair0 params k (by omega)]
      · have hkeq : k = params.length - 1 := by omega
        subst hkeq
        rw [show params.length - 1 = (ffHidden AM params.dropLast A0).2.length from hcsLen.symm,
          getD_append_last]
        rw [hcsLen.symm] at hpl
        constructor
        · rw [hpl]
          rfl
        · rw [hpl]
          rfl
    · intro k hk
      have hk2 : k < params.length - 1 := by
        simp only [List.length_append, hcsLen, List.length_singleton] at hk
        omega
      rw [getD_append_left cache0 _ _ k (by rw [hcsLen]; exact hk2)]
      exact (ffHidden_fields AM params.dropLast A0 k
        (by rw [List.length_dropLast]; exact hk2)).2.2
    · have hl1 : ((ffHidden AM params.dropLast A0).2
          ++ [(activate AM (ffHidden AM params.dropLast A0).1 pL.1 pL.2 ActivFn.sigmoid).2]).length - 1
          = (ffHidden AM params.dropLast A0).2.length := by
        simp
      rw [hl1, getD_append_last]
      rfl
    · by_cases hcs : params.dropLast = []
      · show ((((ffHidden AM params.dropLast A0).2
            ++ [(activate AM (ffHidden AM params.dropLast A0).1 pL.1 pL.2 ActivFn.sigmoid).2]).getD 0 cache0)).A_prev = A0
        rw [hcs]
        rfl
      · have h0 : 0 < (ffHidden AM params.dropLast A0).2.length := by
          rw [ffHidden_length]
          exact List.length_pos_iff_ne_nil.mpr hcs
        rw [getD_append_left cache0 _ _ 0 h0]
        exact ffHidden_first_Aprev AM params.dropLast A0 hcs
    · intro k hk
      have hkle : k + 1 ≤ (ffHidden AM params.dropLast A0).2.length := by
        simp only [List.length_append, List.length_singleton] at hk
        omega
      rcases Nat.lt_or_ge (k + 1) ((ffHidden AM params.dropLast A0).2.length) with hlt | hge
      · rw [getD_append_left cache0 _ _ (k + 1) hlt,
          getD_append_left cache0 _ _ k (by omega)]
        exact ffHidden_chain AM params.dropLast A0 k (by rw [← ffHidden_length AM]; exact hlt)
      · have hkeq : k + 1 = (ffHidden AM params.dropLast A0).2.length := by omega
        have hcs : params.dropLast ≠ [] := by
          intro hcon
          rw [hcon] at hkeq
          simp [ffHidden] at hkeq
        rw [show k + 1 = (ffHidden AM params.dropLast A0).2.length from hkeq, getD_append_last,
          getD_append_left cache0 _ _ k (by omega)]
        show (ffHidden AM params.dropLast A0).1 = _
        have hidx : params.dropLast.length - 1 = k := by
          have h5 := ffHidden_length AM params.dropLast A0
          omega
        rw [ffHidden_out AM params.dropLast A0 hcs, hidx]
    · have hl1 : ((ffHidden AM params.dropLast A0).2
          ++ [(activate AM (ffHidden AM params.dropLast A0).1 pL.1 pL.2 ActivFn.sigmoid).2]).length - 1
          = (ffHidden AM params.dropLast A0).2.length := by
        simp
      rw [hl1, getD_append_last]
      rfl

/-- C6 (witness): the guarantees evaluated on the concrete 2-unit single
layer network. -/
theorem feedforward_policy_and_shapes_witness :
    shapesOK [1, 2] paramsC9 ∧ paramsC9 ≠ [] ∧ inC1.rows = [1, 2].getD 0 0 ∧
    inC1.cols = 1 ∧
    (∃ AL caches, feedforward AMtest paramsC9 inC1 = some (AL, caches) ∧
      AL.rows = [1, 2].getD paramsC9.length 0 ∧ AL.cols = 1 ∧
      caches.length = paramsC9.length) := by
  have hOK : shapesOK [1, 2] paramsC9 := by
    refine ⟨rfl, ?_⟩
    intro l hl
    cases l with
    | zero => exact ⟨rfl, rfl, rfl, rfl⟩
    | succ n => exact absurd hl (by simp [paramsC9])
  have hne : paramsC9 ≠ [] := by simp [paramsC9]
  refine ⟨hOK, hne, rfl, rfl, ?_⟩
  obtain ⟨AL, caches, h1, h2, h3, h4, _⟩ :=
    feedforward_policy_and_shapes AMtest [1, 2] paramsC9 inC1 1 hOK hne rfl rfl
  exact ⟨AL, caches, h1, h2, h3, h4⟩

/-! Construction and update shape lemmas. -/

lemma initLayers_spec (rand : ℕ → ℕ → ℕ → ℚ) :
    ∀ (arch : List ℤ) (l : ℕ) (ps : Params), initLayers rand l arch = some ps →
      ps.length = arch.length - 1 ∧
      ∀ k, k < ps.length →
        (ps.getD k pair0).1.rows = (arch.getD (k + 1) 0).toNat ∧
        (ps.getD k pair0).1.cols = (arch.getD k 0).toNat ∧
        (ps.getD k pair0).2.rows = (arch.getD (k + 1) 0).toNat ∧
        (ps.getD k pair0).2.cols = 1 := by
  intro arch
  induction arch with
  | nil =>
    intro l ps h
    simp only [initLayers, Option.some.injEq] at h
    subst h
    exact ⟨rfl, by intro k hk; simp at hk⟩
  | cons a t ih =>
    cases t with
    | nil =>
      intro l ps h
      simp only [initLayers, Option.some.injEq] at h
      subst h
      exact ⟨rfl, by intro k hk; simp at hk⟩
    | cons b t2 =>
      intro l ps h
      simp only [initLayers] at h
      by_cases hba : (0 : ℤ) ≤ b ∧ 0 ≤ a
      · rw [np_randn, if_pos hba] at h
        cases hrest : initLayers rand (l + 1) (b :: t2) with
        | none => rw [hrest] at h; simp at h
        | some rest =>
          rw [hrest] at h
          simp only [Option.some.injEq] at h
          subst h
          obtain ⟨ihlen, ihshapes⟩ := ih (l + 1) rest hrest
          refine ⟨?_, ?_⟩
          · simp only [List.length_cons] at ihlen ⊢
            omega
          · intro k hk
            cases k with
            | zero => exact ⟨rfl, rfl, rfl, rfl⟩
            | succ k2 =>
              exact ihshapes k2 (by simp only [List.length_cons] at hk; omega)
      · rw [np_randn, if_neg hba] at h
        simp at h

lemma scale_rows (c : ℚ) (A : Mat) : (Mat.scale c A).rows = A.rows := rfl

lemma scale_cols (c : ℚ) (A : Mat) : (Mat.scale c A).cols = A.cols := rfl

lemma ewSub_isSome (A B : Mat) :
    (Mat.ewSub A B).isSome
      = ((broadcastDim A.rows B.rows).isSome && (broadcastDim A.cols B.cols).isSome) := by
  unfold Mat.ewSub
  cases broadcastDim A.rows B.rows <;> cases broadcastDim A.cols B.cols <;> rfl

lemma ewSub_of_matching (A B : Mat) (hr : B.rows = A.rows) (hc : B.cols = A.cols) :
    ∃ C, Mat.ewSub A B = some C ∧ C.rows = A.rows ∧ C.cols = A.cols := by
  unfold Mat.ewSub
  rw [hr, hc]
  unfold broadcastDim
  rw [if_pos rfl, if_pos rfl]
  exact ⟨_, rfl, rfl, rfl⟩

lemma update_params_ok (eta : ℚ) :
    ∀ (P : Params) (gs : List (Mat × Mat × Mat)), gradsMatchShapes gs P →
      ∃ P2, update_params P gs eta = some P2 ∧ paramShapes P2 = paramShapes P := by
  intro P
  induction P with
  | nil =>
    intro gs _
    exact ⟨[], rfl, rfl⟩
  | cons p pt ih =>
    intro gs hm
    cases gs with
    | nil => exact absurd hm.1 (by simp)
    | cons g gt =>
      have h0 := hm.2 0 (by simp)
      obtain ⟨CW, hCW, hCWr, hCWc⟩ :=
        ewSub_of_matching p.1 (Mat.scale eta g.2.1) h0.1 h0.2.1
      obtain ⟨Cb, hCb, hCbr, hCbc⟩ :=
        ewSub_of_matching p.2 (Mat.scale eta g.2.2) h0.2.2.1 h0.2.2.2
      have hlen : gt.length = pt.length := by
        have h1 := hm.1
        simp only [List.length_cons] at h1
        omega
      obtain ⟨P2, hP2, hsh⟩ := ih gt
        ⟨hlen, fun k hk => hm.2 (k + 1) (by simp only [List.length_cons]; omega)⟩
      refine ⟨(CW, Cb) :: P2, ?_, ?_⟩
      · simp only [update_params, hCW, hCb, hP2]
      · have hsh2 := hsh
        simp only [paramShapes] at hsh2 ⊢
        simp only [List.map_cons]
        refine congrArg₂ List.cons ?_ hsh2
        rw [hCWr, hCWc, hCbr, hCbc]

lemma paramShapes_getD :
    ∀ (P : Params) (k : ℕ), k < P.length →
      (paramShapes P).getD k ((0, 0), (0, 0))
        = (((P.getD k pair0).1.rows, (P.getD k pair0).1.cols),
           ((P.getD k pair0).2.rows, (P.getD k pair0).2.cols)) := by
  intro P
  induction P with
  | nil => intro k hk; simp at hk
  | cons p pt ih =>
    intro k hk
    cases k with
    | zero => rfl
    | succ k2 => exact ih k2 (by simp only [List.length_cons] at hk; omega)

lemma gradsMatchShapes_congr (P P2 : Params) (gs : List (Mat × Mat × Mat))
    (hps : paramShapes P2 = paramShapes P) :
    gradsMatchShapes gs P → gradsMatchShapes gs P2 := by
  intro hm
  have hlen : P2.length = P.length := by
    have h1 := congrArg List.length hps
    simpa [paramShapes] using h1
  refine ⟨by rw [hlen]; exact hm.1, ?_⟩
  intro k hk
  have hk2 : k < P.length := by omega
  have egetD : (paramShapes P2).getD k ((0, 0), (0, 0))
      = (paramShapes P).getD k ((0, 0), (0, 0)) := by rw [hps]
  rw [paramShapes_getD P2 k hk, paramShapes_getD P k hk2] at egetD
  have e1 := congrArg (fun x => x.1.1) egetD
  have e2 := congrArg (fun x => x.1.2) egetD
  have e3 := congrArg (fun x => x.2.1) egetD
  have e4 := congrArg (fun x => x.2.2) egetD
  obtain ⟨m1, m2, m3, m4⟩ := hm.2 k hk2
  exact ⟨m1.trans e1.symm, m2.trans e2.symm, m3.trans e3.symm, m4.trans e4.symm⟩

lemma applyUpdates_ok (eta : ℚ) :
    ∀ (seq : List (List (Mat × Mat × Mat))) (P : Params),
      (∀ gs ∈ seq, gradsMatchShapes gs P) →
      ∃ P2, applyUpdates eta seq P = some P2 ∧ paramShapes P2 = paramShapes P := by
  intro seq
  induction seq with
  | nil => intro P _; exact ⟨P, rfl, rfl⟩
  | cons g rest ih =>
    intro P h
    obtain ⟨P1, hP1, hsh1⟩ := update_params_ok eta P g (h g (List.mem_cons_self g rest))
    obtain ⟨P2, hP2, hsh2⟩ := ih P1
      (fun gs hgs => gradsMatchShapes_congr P P1 gs hsh1 (h gs (List.mem_cons_of_mem g hgs)))
    refine ⟨P2, ?_, hsh2.trans hsh1⟩
    simp only [applyUpdates, hP1]
    exact hP2

lemma adjacentNonneg_of_nonneg :
    ∀ (arch : List ℤ), (∀ d ∈ arch, 0 ≤ d) → adjacentNonneg arch = true := by
  intro arch
  induction arch with
  | nil => intro _; rfl
  | cons a t ih =>
    cases t with
    | nil => intro _; rfl
    | cons b t2 =>
      intro h
      simp only [adjacentNonneg, Bool.and_eq_true, decide_eq_true_eq]
      exact ⟨⟨h a (by simp), h b (by simp)⟩,
        ih (fun d hd => h d (List.mem_cons_of_mem a hd))⟩

/-- C7: on every valid architecture (length at least 2, all dimensions
positive), construction succeeds and yields, for each layer l, a weight of
shape (units[l], units[l-1]) and a bias of shape (units[l], 1); and every
subsequent sequence of update calls whose gradient arguments have the
matching shapes succeeds (no numpy broadcast error) and leaves the per-layer
shapes exactly as the architecture dictates. -/
theorem init_shapes_and_update_preservation (rand : ℕ → ℕ → ℕ → ℚ)
    (arch : List ℤ) (eta : ℚ) (seq : List (List (Mat × Mat × Mat)))
    (hlen2 : 2 ≤ arch.length) (hpos : ∀ d ∈ arch, 0 < d)
    (hseq : ∀ gs ∈ seq, gs.length = arch.length - 1 ∧
      ∀ k, k < arch.length - 1 →
        (gs.getD k triple0).2.1.rows = (arch.getD (k + 1) 0).toNat ∧
        (gs.getD k triple0).2.1.cols = (arch.getD k 0).toNat ∧
        (gs.getD k triple0).2.2.rows = (arch.getD (k + 1) 0).toNat ∧
        (gs.getD k triple0).2.2.cols = 1) :
    ∃ ps, DeepNet_init rand arch = some ps ∧
      ps.length = arch.length - 1 ∧
      (∀ k, k < ps.length →
        (ps.getD k pair0).1.rows = (arch.getD (k + 1) 0).toNat ∧
        (ps.getD k pair0).1.cols = (arch.getD k 0).toNat ∧
        (ps.getD k pair0).2.rows = (arch.getD (k + 1) 0).toNat ∧
        (ps.getD k pair0).2.cols = 1) ∧
      ∃ ps2, applyUpdates eta seq ps = some ps2 ∧ paramShapes ps2 = paramShapes ps := by
  have hok : adjacentNonneg arch = true :=
    adjacentNonneg_of_nonneg arch (fun d hd => le_of_lt (hpos d hd))
  have hsome : (initLayers rand 1 arch).isSome = true := by
    rw [initLayers_isSome_eq]
    exact hok
  obtain ⟨ps, hps⟩ := Option.isSome_iff_exists.mp hsome
  obtain ⟨hlen, hshapes⟩ := initLayers_spec rand arch 1 ps hps
  refine ⟨ps, hps, hlen, hshapes, ?_⟩
  apply applyUpdates_ok
  intro gs hgs
  obtain ⟨hgl, hgsh⟩ := hseq gs hgs
  refine ⟨hgl.trans hlen.symm, ?_⟩
  intro k hk
  have hk2 : k < arch.length - 1 := by omega
  obtain ⟨s1, s2, s3, s4⟩ := hshapes k hk
  obtain ⟨t1, t2, t3, t4⟩ := hgsh k hk2
  exact ⟨t1.trans s1.symm, t2.trans s2.symm, t3.trans s3.symm, t4.trans s4.symm⟩

/-- C7 (witness): the logistic-regression architecture [1, 1] with one
matching-shape gradient update. -/
theorem init_shapes_and_update_preservation_witness :
    2 ≤ ([1, 1] : List ℤ).length ∧ (∀ d ∈ ([1, 1] : List ℤ), 0 < d) ∧
    (∀ gs ∈ [[(inC1, inC1, inC1)]], List.length gs = ([1, 1] : List ℤ).length - 1 ∧
      ∀ k, k < ([1, 1] : List ℤ).length - 1 →
        (gs.getD k triple0).2.1.rows = (([1, 1] : List ℤ).getD (k + 1) 0).toNat ∧
        (gs.getD k triple0).2.1.cols = (([1, 1] : List ℤ).getD k 0).toNat ∧
        (gs.getD k triple0).2.2.rows = (([1, 1] : List ℤ).getD (k + 1) 0).toNat ∧
        (gs.getD k triple0).2.2.cols = 1) ∧
    (∃ ps, DeepNet_init (fun _ _ _ => 0) [1, 1] = some ps ∧
      ps.length = ([1, 1] : List ℤ).length - 1 ∧
      (∀ k, k < ps.length →
        (ps.getD k pair0).1.rows = (([1, 1] : List ℤ).getD (k + 1) 0).toNat ∧
        (ps.getD k pair0).1.cols = (([1, 1] : List ℤ).getD k 0).toNat ∧
        (ps.getD k pair0).2.rows = (([1, 1] : List ℤ).getD (k + 1) 0).toNat ∧
        (ps.getD k pair0).2.cols = 1) ∧
      ∃ ps2, applyUpdates 1 [[(inC1, inC1, inC1)]] ps = some ps2 ∧
        paramShapes ps2 = paramShapes ps) := by
  have hseq : ∀ gs ∈ [[(inC1, inC1, inC1)]],
      List.length gs = ([1, 1] : List ℤ).length - 1 ∧
      ∀ k, k < ([1, 1] : List ℤ).length - 1 →
        (gs.getD k triple0).2.1.rows = (([1, 1] : List ℤ).getD (k + 1) 0).toNat ∧
        (gs.getD k triple0).2.1.cols = (([1, 1] : List ℤ).getD k 0).toNat ∧
        (gs.getD k triple0).2.2.rows = (([1, 1] : List ℤ).getD (k + 1) 0).toNat ∧
        (gs.getD k triple0).2.2.cols = 1 := by
    intro gs hgs
    rw [List.mem_singleton] at hgs
    subst hgs
    refine ⟨rfl, ?_⟩
    intro k hk
    cases k with
    | zero => exact ⟨rfl, rfl, rfl, rfl⟩
    | succ k2 => simp at hk
  exact ⟨by decide, by decide, hseq,
    init_shapes_and_update_preservation (fun _ _ _ => 0) [1, 1] 1
      [[(inC1, inC1, inC1)]] (by decide) (by decide) hseq⟩

/-! Mini-batch partition lemmas. -/

lemma mini_batches_nil {α : Type} (s : ℕ) : mini_batches ([] : List α) s = [] := by
  unfold mini_batches mini_batch_starts
  have h0 : (List.length ([] : List α) + s - 1) / s = 0 := by
    rcases Nat.eq_zero_or_pos s with h | h
    · subst h
      simp
    · simp only [List.length_nil, Nat.zero_add]
      exact Nat.div_eq_of_lt (by omega)
  rw [h0]
  rfl

lemma mini_batches_cons {α : Type} (s : ℕ) (hs : 0 < s) (xs : List α) (hx : xs ≠ []) :
    mini_batches xs s = xs.take s :: mini_batches (xs.drop s) s := by
  have hm : 1 ≤ xs.length := List.length_pos_iff_ne_nil.mpr hx
  unfold mini_batches mini_batch_starts
  have h1 : (xs.length + s - 1) / s = (xs.length - 1) / s + 1 := by
    rw [show xs.length + s - 1 = xs.length - 1 + s from by omega, Nat.add_div_right _ hs]
  have h2 : ((xs.drop s).length + s - 1) / s = (xs.length - 1) / s := by
    rw [List.length_drop]
    rcases le_or_lt xs.length s with hle | hlt
    · rw [show xs.length - s = 0 from by omega]
      rw [Nat.div_eq_of_lt (by omega), Nat.div_eq_of_lt (by omega)]
    · rw [show xs.length - s + s - 1 = xs.length - 1 - s + s from by omega,
        Nat.add_div_right _ hs]
      conv_rhs => rw [show xs.length - 1 = xs.length - 1 - s + s from by omega,
        Nat.add_div_right _ hs]
  rw [h1, h2, List.range_succ_eq_map]
  simp only [List.map_cons, List.map_map, Function.comp]
  congr 1
  · rw [Nat.zero_mul, List.drop_zero]
  · apply List.map_congr_left
    intro i _
    show (xs.drop (Nat.succ i * s)).take s = ((xs.drop s).drop (i * s)).take s
    rw [List.drop_drop, Nat.succ_mul, Nat.add_comm s (i * s)]

lemma mini_batches_partition_aux {α : Type} (s : ℕ) (hs : 0 < s) :
    ∀ (N : ℕ) (xs : List α), xs.length ≤ N → xs ≠ [] →
      (mini_batches xs s).flatten = xs ∧
      (∀ b ∈ (mini_batches xs s).dropLast, b.length = s) ∧
      (∀ bl, (mini_batches xs s).getLast? = some bl →
        bl.length = if xs.length % s = 0 then s else xs.length % s) ∧
      (xs.length < s → mini_batches xs s = [xs]) := by
  intro N
  induction N with
  | zero =>
    intro xs hN hx
    exact absurd (List.length_eq_zero.mp (Nat.le_zero.mp hN)) hx
  | succ N ih =>
    intro xs hN hx
    have hm : 1 ≤ xs.length := List.length_pos_iff_ne_nil.mpr hx
    rcases le_or_lt xs.length s with hle | hlt
    · have hdrop : xs.drop s = [] := List.drop_eq_nil_of_le hle
      have htake : xs.take s = xs := List.take_of_length_le hle
      rw [mini_batches_cons s hs xs hx, hdrop, htake, mini_batches_nil]
      refine ⟨by simp, by simp, ?_, fun _ => rfl⟩
      intro bl hbl
      have hxl : bl = xs := (Option.some.inj hbl).symm
      rw [hxl]
      rcases Nat.lt_or_ge xs.length s with h1 | h1
      · rw [Nat.mod_eq_of_lt h1, if_neg (by omega)]
      · have hxe : xs.length = s := by omega
        rw [hxe, Nat.mod_self, if_pos rfl]
    · have hx2 : xs.drop s ≠ [] := by
        have hpos : 0 < (xs.drop s).length := by
          rw [List.length_drop]
          omega
        exact List.length_pos_iff_ne_nil.mp hpos
      obtain ⟨IH1, IH2, IH3, _⟩ :=
        ih (xs.drop s) (by rw [List.length_drop]; omega) hx2
      have hrest_ne : mini_batches (xs.drop s) s ≠ [] := by
        intro hcon
        rw [hcon] at IH1
        exact hx2 (by simpa using IH1.symm)
      rw [mini_batches_cons s hs xs hx]
      refine ⟨?_, ?_, ?_, ?_⟩
      · rw [List.flatten_cons, IH1, List.take_append_drop]
      · intro b hb
        cases hms : mini_batches (xs.drop s) s with
        | nil => exact absurd hms hrest_ne
        | cons r rt =>
          rw [hms] at hb
          simp only [List.dropLast] at hb
          rcases List.mem_cons.mp hb with hb1 | hb2
          · subst hb1
            rw [List.length_take]
            omega
          · exact IH2 b (by rw [hms]; exact hb2)
      · intro bl hbl
        cases hms : mini_batches (xs.drop s) s with
        | nil => exact absurd hms hrest_ne
        | cons r rt =>
          rw [hms, List.getLast?_cons_cons] at hbl
          have hv := IH3 bl (by rw [hms]; exact hbl)
          rw [hv, List.length_drop]
          have hmod : (xs.length - s) % s = xs.length % s := by
            conv_rhs => rw [show xs.length = xs.length - s + s from by omega,
              Nat.add_mod_right]
          rw [hmod]
      · intro hcon
        exact absurd hcon (by omega)

/-! Shape-propagation lemmas: running the engine on two batches of the same
feature dimension (any batch sizes) produces caches with equal row counts and
gradient sets with equal dW/db shapes, so the update step's numpy broadcast
checks decide identically.  This is what makes a smaller final mini-batch
safe: the batch-size axis never reaches a broadcast check. -/

lemma activate_parallel (AM : Activations) (A A2 W b : Mat) (fn : ActivFn)
    (h : rowsEq A A2) :
    rowsEq (activate AM A W b fn).1 (activate AM A2 W b fn).1 ∧
    cacheRowsEq (activate AM A W b fn).2 (activate AM A2 W b fn).2 :=
  ⟨rfl, h, rfl, rfl, rfl, rfl⟩

lemma ffHidden_parallel (AM : Activations) :
    ∀ (hs : List (Mat × Mat)) (A A2 : Mat), rowsEq A A2 →
      rowsEq (ffHidden AM hs A).1 (ffHidden AM hs A2).1 ∧
      List.Forall₂ cacheRowsEq (ffHidden AM hs A).2 (ffHidden AM hs A2).2 := by
  intro hs
  induction hs with
  | nil => intro A A2 h; exact ⟨h, List.Forall₂.nil⟩
  | cons p t ih =>
    intro A A2 h
    have hstep := activate_parallel AM A A2 p.1 p.2 ActivFn.relu h
    have hrest := ih _ _ hstep.1
    exact ⟨hrest.1, List.Forall₂.cons hstep.2 hrest.2⟩

lemma gplg_parallel (AM : Activations) (fn fn2 : ActivFn) (dA dA2 : Mat)
    (c c2 : Cache) (hd : rowsEq dA dA2) (hc : cacheRowsEq c c2) :
    tripleGradShapesEq (get_prevlayer_gradient AM dA c fn)
      (get_prevlayer_gradient AM dA2 c2 fn2) := by
  refine ⟨?_, ⟨hd, hc.1⟩, ⟨hd, rfl⟩⟩
  show c.W.cols = c2.W.cols
  rw [hc.2.1]

lemma forall2_map_of {α β : Type} {R : α → α → Prop} {S : β → β → Prop}
    (f g : α → β) (h : ∀ a b, R a b → S (f a) (g b)) :
    ∀ {l1 l2 : List α}, List.Forall₂ R l1 l2 → List.Forall₂ S (l1.map f) (l2.map g) := by
  intro l1 l2 hf
  induction hf with
  | nil => exact List.Forall₂.nil
  | cons hab _ ihh => exact List.Forall₂.cons (h _ _ hab) ihh

lemma backprop_parallel (AM : Activations) (AL AL2 Y Y2 : Mat)
    (cs cs2 : List Cache) (cL cL2 : Cache)
    (hAL : rowsEq AL AL2) (hcs : List.Forall₂ cacheRowsEq cs cs2)
    (hcL : cacheRowsEq cL cL2) :
    List.Forall₂ tripleGradShapesEq
      ((cs.map (fun c => get_prevlayer_gradient AM
          (get_prevlayer_gradient AM (dALgrad AL Y) cL ActivFn.sigmoid).1 c ActivFn.relu))
        ++ [get_prevlayer_gradient AM (dALgrad AL Y) cL ActivFn.sigmoid])
      ((cs2.map (fun c => get_prevlayer_gradient AM
          (get_prevlayer_gradient AM (dALgrad AL2 Y2) cL2 ActivFn.sigmoid).1 c ActivFn.relu))
        ++ [get_prevlayer_gradient AM (dALgrad AL2 Y2) cL2 ActivFn.sigmoid]) := by
  have hdAL : rowsEq (dALgrad AL Y) (dALgrad AL2 Y2) := hAL
  have hgL := gplg_parallel AM ActivFn.sigmoid ActivFn.sigmoid
    (dALgrad AL Y) (dALgrad AL2 Y2) cL cL2 hdAL hcL
  exact List.rel_append
    (forall2_map_of _ _
      (fun a b hab => gplg_parallel AM ActivFn.relu ActivFn.relu _ _ a b hgL.1 hab) hcs)
    (List.Forall₂.cons hgL List.Forall₂.nil)

lemma update_params_isSome_cons (eta : ℚ) (p : Mat × Mat) (pt : Params)
    (g : Mat × Mat × Mat) (gt : List (Mat × Mat × Mat)) :
    (update_params (p :: pt) (g :: gt) eta).isSome
      = ((Mat.ewSub p.1 (Mat.scale eta g.2.1)).isSome
          && ((Mat.ewSub p.2 (Mat.scale eta g.2.2)).isSome
          && (update_params pt gt eta).isSome)) := by
  cases h1 : Mat.ewSub p.1 (Mat.scale eta g.2.1) <;>
    cases h2 : Mat.ewSub p.2 (Mat.scale eta g.2.2) <;>
      cases h3 : update_params pt gt eta <;>
        simp [update_params, h1, h2, h3]

lemma update_isSome_congr (eta : ℚ) :
    ∀ (P : Params) (gs gs2 : List (Mat × Mat × Mat)),
      List.Forall₂ tripleGradShapesEq gs gs2 →
      (update_params P gs eta).isSome = (update_params P gs2 eta).isSome := by
  intro P
  induction P with
  | nil => intro gs gs2 _; rfl
  | cons p pt ih =>
    intro gs gs2 hf
    cases hf with
    | nil => rfl
    | cons hg htail =>
      rw [update_params_isSome_cons, update_params_isSome_cons]
      simp only [ewSub_isSome, scale_rows, scale_cols]
      rw [hg.2.1.1, hg.2.1.2, hg.2.2.1, hg.2.2.2, ih _ _ htail]

/-- C8 (counterexample): on the empty dataset with mini_batch_size 1 (which
is larger than the dataset size 0), the trainer builds zero mini-batches, not
the single whole-dataset mini-batch the claim asserts for every dataset. -/
theorem mini_batches_empty_counterexample :
    mini_batches ([] : List ℚ) 1 = [] ∧
    mini_batches ([] : List ℚ) 1 ≠ [([] : List ℚ)] := by
  constructor
  · exact mini_batches_nil 1
  · rw [mini_batches_nil 1]
    simp

/-- C8 (amended): for every nonempty dataset and positive mini_batch_size,
the per-epoch slicing is a contiguous partition of the dataset in order;
every batch except the last has exactly the configured size; the last batch
has the configured size when the dataset size is divisible and size
dataset mod batch-size otherwise; a batch size exceeding the dataset size
yields exactly one batch, the whole dataset; and whether the engine's
mini-batch step succeeds is independent of the batch handed to it (it depends
only on the parameters and the feature dimension), so the smaller final batch
never errors when the full-size batches do not. -/
theorem mini_batches_partition {α : Type} (s : ℕ) (xs : List α) (hs : 0 < s)
    (hx : xs ≠ []) :
    (mini_batches xs s).flatten = xs ∧
    (∀ b ∈ (mini_batches xs s).dropLast, b.length = s) ∧
    (∀ bl, (mini_batches xs s).getLast? = some bl →
      bl.length = if xs.length % s = 0 then s else xs.length % s) ∧
    (xs.length < s → mini_batches xs s = [xs]) ∧
    (∀ (AM : Activations) (log : ℚ → EV) (eta : ℚ) (k1 k2 : ℕ) (P : Params)
      (cs1 cs2 : List ℚ) (Xb1 yb1 Xb2 yb2 : List (List ℚ)), P ≠ [] →
      (transposeOf Xb1).rows = (transposeOf Xb2).rows →
      (sgdBatchStep AM log eta k1 (P, cs1) Xb1 yb1).isSome
        = (sgdBatchStep AM log eta k2 (P, cs2) Xb2 yb2).isSome) := by
  obtain ⟨h1, h2, h3, h4⟩ :=
    mini_batches_partition_aux s hs xs.length xs (le_refl _) hx
  refine ⟨h1, h2, h3, h4, ?_⟩
  intro AM log eta k1 k2 P cs1 cs2 Xb1 yb1 Xb2 yb2 hne hrows
  cases hL : P.getLast? with
  | none => exact absurd (List.getLast?_eq_none_iff.mp hL) hne
  | some pL =>
    have hpar := ffHidden_parallel AM P.dropLast (transposeOf Xb1) (transposeOf Xb2) hrows
    have hout := activate_parallel AM (ffHidden AM P.dropLast (transposeOf Xb1)).1
      (ffHidden AM P.dropLast (transposeOf Xb2)).1 pL.1 pL.2 ActivFn.sigmoid hpar.1
    simp only [sgdBatchStep, feedforward, hL, backpropagate, backpropagateCore,
      List.getLast?_concat, List.dropLast_concat, Option.isSome_map']
    apply update_isSome_congr
    exact backprop_parallel AM _ _ _ _ _ _ _ _ hout.1 hpar.2 hout.2

/-- C8 (witness): the partition facts evaluated on a 3-element dataset with
batch size 2 (final batch of size 1 = 3 mod 2). -/
theorem mini_batches_partition_witness :
    0 < 2 ∧ ([1, 2, 3] : List ℚ) ≠ [] ∧
    ((mini_batches ([1, 2, 3] : List ℚ) 2).flatten = [1, 2, 3] ∧
      (∀ b ∈ (mini_batches ([1, 2, 3] : List ℚ) 2).dropLast, b.length = 2) ∧
      (∀ bl, (mini_batches ([1, 2, 3] : List ℚ) 2).getLast? = some bl →
        bl.length = if ([1, 2, 3] : List ℚ).length % 2 = 0 then 2
          else ([1, 2, 3] : List ℚ).length % 2) ∧
      (([1, 2, 3] : List ℚ).length < 2 → mini_batches ([1, 2, 3] : List ℚ) 2 = [[1, 2, 3]]) ∧
      (∀ (AM : Activations) (log : ℚ → EV) (eta : ℚ) (k1 k2 : ℕ) (P : Params)
        (cs1 cs2 : List ℚ) (Xb1 yb1 Xb2 yb2 : List (List ℚ)), P ≠ [] →
        (transposeOf Xb1).rows = (transposeOf Xb2).rows →
        (sgdBatchStep AM log eta k1 (P, cs1) Xb1 yb1).isSome
          = (sgdBatchStep AM log eta k2 (P, cs2) Xb2 yb2).isSome)) :=
  ⟨by decide, by decide, mini_batches_partition 2 [1, 2, 3] (by decide) (by decide)⟩

/-- C10: SGD training is deterministic given the initial parameters.  The
global random stream is threaded through the trainer but never consumed (the
construction in DeepNet.__init__ is the only randomness in the source), and
the shuffle capability is invoked only with the hardwired seed 0: two runs
over the same data and configuration, with arbitrary ambient random streams
and with shuffle capabilities that merely agree at seed 0, produce identical
final parameters and identical recorded costs. -/
theorem SGD_deterministic (AM : Activations) (log : ℚ → EV)
    (shuf1 shuf2 : ℕ → ℕ → List ℕ) (rng1 rng2 : ℕ → ℚ)
    (training : List (List ℚ) × List (List ℚ)) (num_epochs mini_batch_size : ℕ)
    (eta : ℚ) (test_data : Option (List (List ℚ) × List (List ℚ)))
    (params : Params) (h : ∀ n, shuf1 0 n = shuf2 0 n) :
    SGD AM log shuf1 rng1 training num_epochs mini_batch_size eta test_data params
      = SGD AM log shuf2 rng2 training num_epochs mini_batch_size eta test_data params := by
  simp only [SGD, sgdEpoch, h]

/-- C10 (witness): two runs of one epoch on a one-point dataset with
different ambient random streams and two shuffle capabilities agreeing at
seed 0. -/
theorem SGD_deterministic_witness :
    (∀ n, (fun _ k => List.range k) 0 n = (fun s k => List.range (k + s)) 0 n) ∧
    SGD AMtest (fun _ => EV.num 0) (fun _ k => List.range k) (fun _ => 0)
        ([[1]], [[1]]) 1 1 1 none paramsC1
      = SGD AMtest (fun _ => EV.num 0) (fun s k => List.range (k + s)) (fun _ => 1)
        ([[1]], [[1]]) 1 1 1 none paramsC1 :=
  ⟨fun n => rfl,
    SGD_deterministic AMtest (fun _ => EV.num 0) (fun _ k => List.range k)
      (fun s k => List.range (k + s)) (fun _ => 0) (fun _ => 1)
      ([[1]], [[1]]) 1 1 1 none paramsC1 (fun n => rfl)⟩

/-- C5 (witness): the backward-step formulas instantiated at a concrete
gradient and cache, and the dead activ_fn argument observed at both values. -/
theorem get_prevlayer_gradient_formulas_witness :
    (get_prevlayer_gradient AMtest inC1 cacheC3 ActivFn.relu).2.1.entry 0 0
      = (1 / ((cacheC3.A_prev.cols : ℕ) : ℚ)) *
          sumTo inC1.cols (fun k =>
            inC1.entry 0 k * AMtest.applyD cacheC3.d_func (cacheC3.Z.entry 0 k)
              * cacheC3.A_prev.entry 0 k) ∧
    get_prevlayer_gradient AMtest inC1 cacheC3 ActivFn.sigmoid
      = get_prevlayer_gradient AMtest inC1 cacheC3 ActivFn.relu :=
  ⟨(get_prevlayer_gradient_formulas AMtest inC1 cacheC3 ActivFn.relu).1 0 0,
   (get_prevlayer_gradient_formulas AMtest inC1 cacheC3 ActivFn.sigmoid).2.2.2.1⟩
